import Mathlib

/-!
Verification development for the RAG document pipeline of the research_helper
repository (rag_server: DocumentRepository and DocumentService).

The Python code is shallowly embedded: property dictionaries become
association lists over a small value type, the Weaviate collection becomes a
list of stored objects, the injected repository of the service layer becomes a
record of oracle functions, and fallible operations return Except.
Floating-point scores are modelled by rationals.
-/

/-- Value stored under a property key of a Weaviate object or data object
(strings, integers, dates as integers, float vectors, and Python None). -/
inductive PropValue where
  | str (s : String)
  | int (n : Int)
  | date (n : Int)
  | vec (v : List ℚ)
  | null
deriving DecidableEq, Repr

/-- A Python dict of properties, as an association list (first binding wins). -/
abbrev Props := List (String × PropValue)

/-- Python `d.get(k)`: the first value bound to `k`, if any. -/
def getProp (p : Props) (k : String) : Option PropValue :=
  (p.find? (fun kv => kv.1 == k)).map (fun kv => kv.2)

/-- Python `dict.update` / Weaviate merge-update: bindings of `new` override
those of `old`; untouched keys keep their value. -/
def mergeProps (old new : Props) : Props :=
  old.filter (fun kv => (new.find? (fun kv2 => kv2.1 == kv.1)).isNone) ++ new

/-- Python truthiness of a property value. -/
def pyTruthy : PropValue → Bool
  | .str s => s ≠ ""
  | .int n => n ≠ 0
  | .date _ => true
  | .vec v => v ≠ []
  | .null => false

/-- Python truthiness of `d.get(k)` (a missing key is falsy). -/
def pyTruthyOpt : Option PropValue → Bool
  | none => false
  | some v => pyTruthy v

/-- Python `str()` / f-string rendering of a property value. -/
def pyStr : PropValue → String
  | .str s => s
  | .int n => toString n
  | .date n => toString n
  | .vec _ => "[vector]"
  | .null => "None"

/-- Python `props.get(k, default)` rendered as a string. -/
def getPropStr (p : Props) (k : String) (d : String) : String :=
  match getProp p k with
  | some v => pyStr v
  | none => d

/-- An object stored in the Weaviate collection: the store-assigned uuid, the
property dict, the creation-time metadata and the stored vector. -/
structure StoredObject where
  uuid : String
  props : Props
  creationTime : Option Int
  vector : Option (List ℚ)
deriving DecidableEq, Repr

/-- The transient search-result shape (models.schemas.SimilarityResult). -/
structure SimilarityResult where
  id : Option String
  title : String
  content : String
  authors : String
  published : Option PropValue
  doi : String
  similarity_score : ℚ
  distance : ℚ
  vector : Option (List ℚ)
  chunk_index : Option PropValue
deriving DecidableEq, Repr

/-! ## DocumentRepository.store_processed_data -/

/-- The vector check of the storage loop: `if not vector or not
isinstance(vector, list): continue` keeps a chunk exactly when its `vector`
entry is a non-empty list. -/
def chunkIsValid (data_object : Props) : Bool :=
  match getProp data_object "vector" with
  | some (.vec v) => v ≠ []
  | _ => false

/-- The id appended for a stored chunk, an f-string of the `doi` and
`chunk_index` properties (defaults `unknown_doi` and `-1`). -/
def synthId (data_object : Props) : String :=
  let properties := data_object.filter (fun kv => kv.1 ≠ "vector")
  pyStr ((getProp properties "doi").getD (.str "unknown_doi")) ++ "_" ++
    pyStr ((getProp properties "chunk_index").getD (.int (-1)))

/-- DocumentRepository.store_processed_data: early return on an empty input,
RuntimeError when the collection / batch machinery is unreachable
(`collectionOk = false`), otherwise the per-chunk loop that skips invalid
vectors and accumulates synthesized ids. -/
def store_processed_data (collectionOk : Bool) (data_objects : List Props) :
    Except String (List String) :=
  if data_objects.isEmpty then .ok []
  else if collectionOk then
    .ok (data_objects.foldl
      (fun object_ids data_object =>
        if chunkIsValid data_object then object_ids ++ [synthId data_object]
        else object_ids) [])
  else .error "Database storage failed"

/-! ## DocumentRepository.get_all_documents (post-fetch processing) -/

/-- Sort key of the in-memory recency sort:
`x.metadata.creation_time if x.metadata else 0`. -/
def creationKey (o : StoredObject) : Int :=
  o.creationTime.getD 0

/-- One insertion step of the stable descending sort: keep objects with a
strictly larger key ahead, placing the new object before equal keys met later
in the scan (stability of Python's sorted). -/
def insertByCreation (o : StoredObject) :
    List StoredObject → List StoredObject
  | [] => [o]
  | x :: xs =>
    if creationKey o < creationKey x then x :: insertByCreation o xs
    else o :: x :: xs

/-- Python `sorted(objects, key=creation_time, reverse=True)`: a stable sort
by creation time, descending (modelled as stable insertion sort, which agrees
with Python's stable sort on every input). -/
def sortByCreationDesc (l : List StoredObject) : List StoredObject :=
  l.foldr insertByCreation []

/-- Title used for deduplication: `props.get("title", "Unknown")`. -/
def titleOf (o : StoredObject) : String :=
  getPropStr o.props "title" "Unknown"

/-- The SimilarityResult built for one kept object in get_all_documents
(content truncated to a 200-character preview). -/
def mkListResult (o : StoredObject) : SimilarityResult :=
  { id := some o.uuid
    title := titleOf o
    content := (getPropStr o.props "content" "").take 200
    authors := getPropStr o.props "authors" "Unknown"
    published := getProp o.props "published"
    doi := getPropStr o.props "doi" ""
    similarity_score := 0
    distance := 0
    vector := none
    chunk_index := getProp o.props "chunk_index" }

/-- DocumentRepository.get_all_documents, applied to the objects returned by
the store for the fetch: sort by creation time descending, then walk the
sorted list keeping the first object of each unseen title. -/
def get_all_documents (response_objects : List StoredObject) :
    List SimilarityResult :=
  (sortByCreationDesc response_objects).foldl
    (fun acc obj =>
      let title := titleOf obj
      if title ∈ acc.1 then acc
      else (title :: acc.1, acc.2 ++ [mkListResult obj]))
    (([] : List String), ([] : List SimilarityResult)) |>.2

/-! ## DocumentRepository.update_document / delete_document -/

/-- Weaviate `fetch_object_by_id` over the modelled collection. -/
def fetch_object_by_id (col : List StoredObject) (doc_id : String) :
    Option StoredObject :=
  col.find? (fun r => r.uuid == doc_id)

/-- Weaviate `data.update(uuid, properties)`: merge the new properties into
every record carrying that uuid. -/
def data_update (col : List StoredObject) (uuid : String) (updates : Props) :
    List StoredObject :=
  col.map (fun r =>
    if r.uuid == uuid then { r with props := mergeProps r.props updates } else r)

/-- Weaviate `fetch_objects(filters=title.equal(t), limit=n)`: the first `n`
records whose title property equals `t`, in storage order. -/
def fetch_objects_by_title (col : List StoredObject) (t : PropValue)
    (limit : Nat) : List StoredObject :=
  (col.filter (fun r => getProp r.props "title" == some t)).take limit

/-- DocumentRepository.update_document: resolve the record, and when its title
is truthy fan the merge out over the (at most 1000) fetched chunks sharing the
title, else update the single record; `False` when the id is unknown. -/
def update_document (collectionOk : Bool) (col : List StoredObject)
    (doc_id : String) (updates : Props) :
    Except String (Bool × List StoredObject) :=
  if collectionOk then
    match fetch_object_by_id col doc_id with
    | none => .ok (false, col)
    | some obj =>
      match getProp obj.props "title" with
      | some t =>
        if pyTruthy t then
          let chunks := fetch_objects_by_title col t 1000
          .ok (true, chunks.foldl
            (fun c chunk => data_update c chunk.uuid updates) col)
        else .ok (true, data_update col doc_id updates)
      | none => .ok (true, data_update col doc_id updates)
  else .error "Database update failed"

/-- DocumentRepository.delete_document: resolve the record, and when its title
is truthy `delete_many` every record sharing the title, else delete the single
record by id; `False` when the id is unknown. -/
def delete_document (collectionOk : Bool) (col : List StoredObject)
    (doc_id : String) : Except String (Bool × List StoredObject) :=
  if collectionOk then
    match fetch_object_by_id col doc_id with
    | none => .ok (false, col)
    | some obj =>
      match getProp obj.props "title" with
      | some t =>
        if pyTruthy t then
          .ok (true, col.filter (fun r => !(getProp r.props "title" == some t)))
        else .ok (true, col.filter (fun r => r.uuid ≠ doc_id))
      | none => .ok (true, col.filter (fun r => r.uuid ≠ doc_id))
  else .error "Database deletion failed"

/-! ## The filtered hybrid Repository search

The version of `DocumentRepository.search_by_vector` committed under src takes
only `(query_vector, limit, distance_threshold)`, yet both of its in-repo
callers (DocumentService.search_by_text and main.py) pass `target_titles`,
`exclude_titles` and `text_query` keyword arguments; the variant implementing
those parameters is not part of the available sources, so it is modelled from
the specification. -/

/-- Search mode of the Repository search operation. -/
inductive SearchMode where
  | hybrid
  | nearVector
deriving DecidableEq, Repr

/-- Modelled from the spec: `target_titles` restricts the candidate set to
documents whose title matches any in the set (inclusion filter);
`exclude_titles` removes documents whose title matches any in the set; both
may combine (AND of inclusion and negated exclusion). -/
def titleFilter (target_titles exclude_titles : Option (List String))
    (title : String) : Bool :=
  (match target_titles with
   | some ts => title ∈ ts
   | none => true) &&
  (match exclude_titles with
   | some es => title ∉ es
   | none => true)

/-- Modelled from the spec: the Repository search operation
`search(query_vector, text_query?, limit, distance_threshold?, target_titles?,
exclude_titles?)`, missing from the available sources. When `text_query` is
present, hybrid search is used; else near-vector only. The store's ranked
candidates for the query are taken as input; the title filters restrict them
and the limit caps the result. -/
def search_spec (ranked_candidates : List SimilarityResult) (limit : Nat)
    (target_titles exclude_titles : Option (List String))
    (text_query : Option String) : SearchMode × List SimilarityResult :=
  ((if text_query.isSome then .hybrid else .nearVector),
   (ranked_candidates.filter
     (fun r => titleFilter target_titles exclude_titles r.title)).take limit)

/-! ## DocumentService -/

/-- The repository injected into DocumentService, as oracle functions: the
full search operation (query_vector, limit, distance_threshold,
target_titles, exclude_titles, text_query) and the id lookup
`get_vector_and_title_by_id` (absent from the available sources; modelled as
an oracle returning the stored vector and title, or none). -/
structure RepoOracle where
  search : List ℚ → Option Nat → Option ℚ → Option (List String) →
    Option (List String) → Option String → List SimilarityResult
  getVectorAndTitleById : String → Option (List ℚ × String)

/-- DocumentService.search_by_text: reject an empty query, embed the fixed
instruction prefix plus the query, convert the similarity threshold to a
distance threshold, and delegate to the repository search in hybrid mode. -/
def search_by_text (repo : RepoOracle) (embed : String → List ℚ)
    (query_text : String) (limit : Option Nat)
    (similarity_threshold : Option ℚ)
    (target_titles : Option (List String)) :
    Except String (List SimilarityResult) :=
  if query_text = "" then .error "Query text cannot be empty."
  else
    let query_vector := embed ("user's question [SEP] " ++ query_text)
    let distance_threshold_value := similarity_threshold.map (fun s => 1 - s)
    .ok (repo.search query_vector limit distance_threshold_value
      target_titles none (some query_text))

/-- Python `l or d` for an optional integer argument (None and 0 are falsy). -/
def pyOrNat (l : Option Nat) (d : Nat) : Nat :=
  match l with
  | none => d
  | some 0 => d
  | some n => n

/-- The `unique_titles` list built by the first pass of the document-diversity
filter: walk the ranked candidates, accepting each unseen title while fewer
than `limit` titles have been accepted. -/
def acceptedTitles (limit : Nat) (raw_results : List SimilarityResult) :
    List String :=
  raw_results.foldl
    (fun unique_titles res =>
      if res.title ∈ unique_titles then unique_titles
      else if unique_titles.length < limit then unique_titles ++ [res.title]
      else unique_titles)
    []

/-- DocumentService.search_by_document_id: resolve the reference vector and
title (404 when absent), over-fetch `4 × limit` candidates without excluding
the reference document, then keep exactly the chunks whose title was accepted
by the diversity filter, in original rank order. -/
def search_by_document_id (repo : RepoOracle) (doc_id : String)
    (limit : Option Nat) (similarity_threshold : Option ℚ) :
    Except String (List SimilarityResult) :=
  match repo.getVectorAndTitleById doc_id with
  | none => .error "Reference document not found or has no vector."
  | some vt =>
    let distance_threshold_value := similarity_threshold.map (fun s => 1 - s)
    let fetch_limit := pyOrNat limit 5 * 4
    let raw_results :=
      repo.search vt.1 (some fetch_limit) distance_threshold_value
        none none none
    let unique_titles := acceptedTitles (pyOrNat limit 5) raw_results
    .ok (raw_results.filter (fun res => res.title ∈ unique_titles))

/-- Error kinds of the ingestion pipeline that matter to its contract: the
zero-surviving-chunks failure and the storage failure (both surface as HTTP
500, with distinct messages). -/
inductive IngestError where
  | processing
  | storage
deriving DecidableEq, Repr

/-- Python `int(v)` on a metadata value: an integer itself, or a parseable
integer string; anything else raises (modelled as none). -/
def pyInt : PropValue → Option Int
  | .int n => some n
  | .str s => s.toInt?
  | _ => none

/-- Python dict assignment `d[k] = v`. -/
def setProp (p : Props) (k : String) (v : PropValue) : Props :=
  p.filter (fun kv => kv.1 ≠ k) ++ [(k, v)]

/-- The `final_metadata` dict of ingestion: defaults (title from the filename
or stem, authors Unknown, published now, synthesized doi), then each truthy
caller-supplied field overrides its default; a year is converted to a
published date when it parses as an integer and is silently ignored
otherwise. -/
def final_metadata_of (now : Int) (file_stem original_filename : String)
    (metadata : Option Props) : Props :=
  let base : Props :=
    [("title", .str (if original_filename ≠ "" then original_filename
                     else file_stem)),
     ("authors", .str "Unknown"),
     ("published", .date now),
     ("doi", .str ("uploaded_" ++ file_stem)),
     ("venue", .null),
     ("citation_count", .null),
     ("tldr", .null),
     ("open_access_pdf", .null)]
  match metadata with
  | none => base
  | some m =>
    if m.isEmpty then base
    else
      let f1 := if pyTruthyOpt (getProp m "title") then
          setProp base "title" ((getProp m "title").getD .null) else base
      let f2 := if pyTruthyOpt (getProp m "authors") then
          setProp f1 "authors" ((getProp m "authors").getD .null) else f1
      let f3 := if pyTruthyOpt (getProp m "year") then
          match pyInt ((getProp m "year").getD .null) with
          | some y => setProp f2 "published" (.date y)
          | none => f2
        else f2
      let f4 := if pyTruthyOpt (getProp m "venue") then
          setProp f3 "venue" ((getProp m "venue").getD .null) else f3
      let f5 := if pyTruthyOpt (getProp m "citation_count") then
          setProp f4 "citation_count" ((getProp m "citation_count").getD .null)
        else f4
      let f6 := if pyTruthyOpt (getProp m "tldr") then
          setProp f5 "tldr" ((getProp m "tldr").getD .null) else f5
      if pyTruthyOpt (getProp m "open_access_pdf") then
        setProp f6 "open_access_pdf" ((getProp m "open_access_pdf").getD .null)
      else f6

/-- The text embedded for one chunk: the document title, a separator token,
and the chunk content. -/
def embedInputOf (final_metadata : Props) (chunk : String) : String :=
  getPropStr final_metadata "title" "" ++ " [SEP] " ++ chunk

/-- The data object assembled for chunk `i` once its embedding succeeded. -/
def data_object_of (fm : Props) (i : Nat) (chunk : String) (v : List ℚ) :
    Props :=
  [("title", (getProp fm "title").getD (.str "")),
   ("content", .str chunk),
   ("authors", (getProp fm "authors").getD (.str "")),
   ("published", (getProp fm "published").getD .null),
   ("doi", (getProp fm "doi").getD
      (.str ("uploaded_" ++ getPropStr fm "title" "unknown" ++ "_" ++
        toString i))),
   ("chunk_index", .int i),
   ("vector", .vec v),
   ("venue", (getProp fm "venue").getD .null),
   ("citation_count", (getProp fm "citation_count").getD .null),
   ("tldr", (getProp fm "tldr").getD .null),
   ("open_access_pdf", (getProp fm "open_access_pdf").getD .null)]

/-- Body of the per-chunk try block of ingestion: embed the title-prefixed
chunk text and build its data object; an embedding exception yields none (the
chunk is logged and skipped). -/
def chunk_record_of (embed_text : String → Except Unit (List ℚ)) (fm : Props)
    (ic : Nat × String) : Option Props :=
  match embed_text (embedInputOf fm ic.2) with
  | .ok v => some (data_object_of fm ic.1 ic.2 v)
  | .error _ => none

/-- DocumentService.process_and_store_document: empty content or an empty
chunk list returns an empty id list; each chunk is embedded (title-prefixed)
and a failing embedding skips just that chunk; zero surviving chunk records is
the processing failure; surviving records go to the repository batch store,
whose failure is the storage failure. The loader's output, the splitter and
the embedder are oracles (their implementations are outside the available
sources). -/
def process_and_store_document (split : String → List String)
    (embed_text : String → Except Unit (List ℚ)) (collectionOk : Bool)
    (now : Int) (content : String) (file_stem original_filename : String)
    (metadata : Option Props) : Except IngestError (List String) :=
  if content = "" then .ok []
  else
    let chunks := split content
    if chunks.isEmpty then .ok []
    else
      let fm := final_metadata_of now file_stem original_filename metadata
      let processed := chunks.enum.filterMap (chunk_record_of embed_text fm)
      if processed.isEmpty then .error .processing
      else
        match store_processed_data collectionOk processed with
        | .ok ids => .ok ids
        | .error _ => .error .storage

/-- The deduplication walk of get_all_documents as a recursion: keep the
first object of each title not yet seen. -/
def selectFirstByTitle (seen : List String) :
    List StoredObject → List StoredObject
  | [] => []
  | o :: rest =>
    if titleOf o ∈ seen then selectFirstByTitle seen rest
    else o :: selectFirstByTitle (titleOf o :: seen) rest

/-! ## Analysis definitions for the diversity filter -/

/-- The unlimited first-occurrence accumulator: fold a title stream into the
list of distinct titles in order of first appearance, extending `acc`. -/
def distinctAccum (acc : List String) (l : List String) : List String :=
  l.foldl (fun a x => if x ∈ a then a else a ++ [x]) acc

/-- The limited accumulator: as `distinctAccum` but accepting a new title only
while fewer than `limit` titles are held. -/
def limitedAccum (limit : Nat) (acc : List String) (l : List String) :
    List String :=
  l.foldl
    (fun a x => if x ∈ a then a else if a.length < limit then a ++ [x] else a)
    acc

/-- The distinct titles of a stream, in order of first appearance. -/
def distinctTitles (l : List String) : List String := distinctAccum [] l

/-! ## Concrete fixtures used by witnesses and counterexamples -/

/-- A ranked result for the C2 witness. -/
def c2Res (ttl : String) (d : ℚ) : SimilarityResult :=
  ⟨none, ttl, "", "", none, "", 1 - d, d, none, none⟩

/-- A ranked candidate stream for the C2 witness: 7 chunks over 5 titles,
the reference document's own title T ranked first. -/
def c2Raw : List SimilarityResult :=
  [c2Res "T" 0, c2Res "X" (1/10), c2Res "Y" (2/10), c2Res "T" (3/10),
   c2Res "Z" (4/10), c2Res "X" (5/10), c2Res "W" (6/10)]

/-- A repository oracle for the C2 witness. -/
def c2Repo : RepoOracle :=
  ⟨fun _ _ _ _ _ _ => c2Raw, fun _ => some ([1], "T")⟩


/-- A candidate list for the C1 witness: chunks titled A, B and C. -/
def c1Cands : List SimilarityResult :=
  [⟨none, "A", "a", "", none, "", 1, 0, none, none⟩,
   ⟨none, "B", "b", "", none, "", 1, 0, none, none⟩,
   ⟨none, "C", "c", "", none, "", 1, 0, none, none⟩]

/-- A repository oracle for the C7 witness whose search echoes the received
distance threshold in the result's distance field. -/
def c7Repo : RepoOracle :=
  ⟨fun _ _ dt _ _ _ => [⟨none, "T", "", "", none, "", 0, dt.getD 9, none,
    none⟩],
   fun _ => some ([1], "T")⟩

/-- A repository oracle for the C8 witness that knows no document. -/
def c8Repo : RepoOracle := ⟨fun _ _ _ _ _ _ => [], fun _ => none⟩

/-- A data object whose vector is present and is a list, but empty. -/
def c3EmptyVecChunk : Props :=
  [("doi", .str "d"), ("chunk_index", .int 0), ("vector", .vec [])]

/-- Data objects for the C3 witness: a valid chunk, a chunk with no vector
and a chunk whose vector is not a list. -/
def c3DemoObjs : List Props :=
  [[("doi", .str "d1"), ("chunk_index", .int 0), ("vector", .vec [1, 2])],
   [("doi", .str "d2"), ("chunk_index", .int 1)],
   [("doi", .str "d3"), ("chunk_index", .int 2), ("vector", .str "oops")]]

/-- A data object and a collection for the C9 witness. -/
def c9Obj : Props :=
  [("doi", .str "10.1/x"), ("chunk_index", .int 3), ("vector", .vec [1])]

/-- A collection whose only record carries a store-assigned uuid. -/
def c9Col : List StoredObject := [⟨"3f2a", [("title", .str "T")], none, none⟩]

/-! ## Helper lemmas -/

/-- The storage loop accumulator equals the filtered, mapped id list. -/
theorem storeLoop_eq (objs : List Props) (acc : List String) :
    objs.foldl
      (fun object_ids data_object =>
        if chunkIsValid data_object then object_ids ++ [synthId data_object]
        else object_ids) acc
      = acc ++ (objs.filter chunkIsValid).map synthId := by
  induction objs generalizing acc with
  | nil => simp
  | cons o rest ih =>
    by_cases h : chunkIsValid o
    · simp [h, ih, List.filter_cons]
    · simp [h, ih, List.filter_cons]

/-! ## Claim theorems -/

/-- C1: when `text_query` is present the Repository search is hybrid, else
near-vector only; `target_titles` is an inclusion filter on titles,
`exclude_titles` an exclusion filter, and they combine, so that
`target_titles = [A, B]` with `exclude_titles = [B]` yields only chunks
titled `A`. -/
theorem C1_filter_composition (cands : List SimilarityResult) (limit : Nat)
    (target exclude : Option (List String)) (tq : Option String) :
    ((search_spec cands limit target exclude tq).1 = .hybrid ↔ tq.isSome) ∧
    (∀ r ∈ (search_spec cands limit target exclude tq).2,
      ∀ ts, target = some ts → r.title ∈ ts) ∧
    (∀ r ∈ (search_spec cands limit target exclude tq).2,
      ∀ es, exclude = some es → r.title ∉ es) ∧
    (∀ r ∈ (search_spec cands limit (some ["A", "B"]) (some ["B"]) tq).2,
      r.title = "A") := by
  refine ⟨?_, ?_, ?_, ?_⟩
  · cases tq <;> simp [search_spec]
  · intro r hr ts hts
    subst hts
    have hr' := List.take_subset _ _ hr
    have := (List.mem_filter.mp hr').2
    simp [titleFilter] at this
    exact this.1
  · intro r hr es hes
    subst hes
    have hr' := List.take_subset _ _ hr
    have := (List.mem_filter.mp hr').2
    simp [titleFilter] at this
    exact this.2
  · intro r hr
    have hr' := List.take_subset _ _ hr
    have := (List.mem_filter.mp hr').2
    simp [titleFilter] at this
    rcases this.1 with h | h
    · exact h
    · exact absurd h this.2

/-- Witness for C1 at a concrete candidate list: with targets A,B and
exclusion B every returned chunk is titled A. -/
theorem C1_filter_composition_witness :
    (search_spec c1Cands 10 (some ["A", "B"]) (some ["B"]) (some "q")).1 =
      .hybrid ∧
    ∀ r ∈ (search_spec c1Cands 10 (some ["A", "B"]) (some ["B"]) (some "q")).2,
      r.title = "A" := by
  have h := C1_filter_composition c1Cands 10 (some ["A", "B"]) (some ["B"])
    (some "q")
  exact ⟨h.1.mpr rfl, h.2.2.2⟩

/-- C7: both search services convert a provided similarity threshold `s` into
the distance threshold `1 - s` handed to the repository search, and pass no
distance threshold when none is provided. -/
theorem C7_threshold_conversion (repo : RepoOracle) (embed : String → List ℚ)
    (q : String) (hq : q ≠ "") (limit : Option Nat) (s : ℚ)
    (target : Option (List String)) (doc_id : String) (v : List ℚ)
    (t : String) (hl : repo.getVectorAndTitleById doc_id = some (v, t)) :
    (search_by_text repo embed q limit (some s) target =
      .ok (repo.search (embed ("user's question [SEP] " ++ q)) limit
        (some (1 - s)) target none (some q))) ∧
    (search_by_text repo embed q limit none target =
      .ok (repo.search (embed ("user's question [SEP] " ++ q)) limit
        none target none (some q))) ∧
    (search_by_document_id repo doc_id limit (some s) =
      .ok ((repo.search v (some (pyOrNat limit 5 * 4)) (some (1 - s))
              none none none).filter
        (fun res => res.title ∈ acceptedTitles (pyOrNat limit 5)
          (repo.search v (some (pyOrNat limit 5 * 4)) (some (1 - s))
            none none none)))) ∧
    (search_by_document_id repo doc_id limit none =
      .ok ((repo.search v (some (pyOrNat limit 5 * 4)) none
              none none none).filter
        (fun res => res.title ∈ acceptedTitles (pyOrNat limit 5)
          (repo.search v (some (pyOrNat limit 5 * 4)) none
            none none none)))) := by
  refine ⟨?_, ?_, ?_, ?_⟩ <;>
    simp [search_by_text, search_by_document_id, hq, hl]

/-- Witness for C7: a similarity threshold of 8/10 reaches the repository
search as distance threshold 2/10, in both services. -/
theorem C7_threshold_conversion_witness :
    search_by_text c7Repo (fun _ => [1]) "q" none (some (8/10)) none =
      .ok [⟨none, "T", "", "", none, "", 0, 2/10, none, none⟩] ∧
    search_by_document_id c7Repo "d" none (some (8/10)) =
      .ok [⟨none, "T", "", "", none, "", 0, 2/10, none, none⟩] := by
  have h := C7_threshold_conversion c7Repo (fun _ => [1]) "q" (by decide)
    none (8/10) none "d" [1] "T" rfl
  refine ⟨?_, ?_⟩
  · rw [h.1]; norm_num [c7Repo]
  · rw [h.2.2.1]; norm_num [c7Repo, acceptedTitles, pyOrNat]

/-- C8: the document-to-document search fails with the not-found error
exactly when the vector-and-title lookup for the reference id yields nothing,
and that is its only failure mode. -/
theorem C8_notfound_iff (repo : RepoOracle) (doc_id : String)
    (limit : Option Nat) (st : Option ℚ) :
    (search_by_document_id repo doc_id limit st =
        .error "Reference document not found or has no vector." ↔
      repo.getVectorAndTitleById doc_id = none) ∧
    (∀ e, search_by_document_id repo doc_id limit st = .error e →
      e = "Reference document not found or has no vector.") := by
  cases h : repo.getVectorAndTitleById doc_id with
  | none => simp [search_by_document_id, h]
  | some vt => simp [search_by_document_id, h]

/-- Witness for C8: an unknown reference id yields the not-found error. -/
theorem C8_notfound_iff_witness :
    search_by_document_id c8Repo "x" none none =
      .error "Reference document not found or has no vector." :=
  (C8_notfound_iff c8Repo "x" none none).1.mpr rfl

/-- C3 (amended): the batch store skips every chunk whose vector entry is
missing, not a list, or an empty (falsy) list; it returns the synthesized ids
of the stored chunks in input order, and errors exactly when the input is
non-empty and the batch machinery is unreachable. -/
theorem C3_store_skips_and_returns_ids (collectionOk : Bool)
    (objs : List Props) :
    (collectionOk = true →
      store_processed_data collectionOk objs =
        .ok ((objs.filter chunkIsValid).map synthId)) ∧
    (store_processed_data collectionOk objs = .error "Database storage failed"
      ↔ (collectionOk = false ∧ objs ≠ [])) ∧
    (∀ o : Props, chunkIsValid o = true ↔
      ∃ v, getProp o "vector" = some (.vec v) ∧ v ≠ []) := by
  refine ⟨?_, ?_, ?_⟩
  · intro h
    subst h
    cases objs with
    | nil => simp [store_processed_data]
    | cons o rest =>
      by_cases hc : chunkIsValid o <;>
        simp [store_processed_data, storeLoop_eq, List.filter_cons, hc]
  · cases collectionOk <;> cases objs <;> simp [store_processed_data]
  · intro o
    cases hv : getProp o "vector" with
    | none => simp [chunkIsValid, hv]
    | some v => cases v <;> simp [chunkIsValid, hv]

/-- Counterexample to C3 as stated: this chunk's vector is neither missing
nor a non-list, so per the claim it is stored and its id returned; the code
skips it (Python falsiness of the empty list) and returns no id. -/
theorem C3_counterexample :
    getProp c3EmptyVecChunk "vector" = some (.vec []) ∧
    synthId c3EmptyVecChunk = "d_0" ∧
    store_processed_data true [c3EmptyVecChunk] = .ok [] ∧
    store_processed_data true [c3EmptyVecChunk] ≠ .ok ["d_0"] := by
  refine ⟨rfl, rfl, rfl, ?_⟩
  intro h
  rw [show store_processed_data true [c3EmptyVecChunk] = .ok [] from rfl] at h
  simp at h

/-- Witness for the amended C3: only the valid chunk's id is returned. -/
theorem C3_store_skips_and_returns_ids_witness :
    store_processed_data true c3DemoObjs = .ok ["d1_0"] := by
  have h := (C3_store_skips_and_returns_ids true c3DemoObjs).1 rfl
  rw [h]
  rfl

/-- C9: the ids returned by the batch store are synthesized doi-and-index
strings, one per valid-vector chunk in input order, and any such string that
is not a store-assigned uuid is rejected by the id-based fetch, update and
delete operations. -/
theorem C9_synthesized_ids (objs : List Props) (col : List StoredObject)
    (s : String) (updates : Props)
    (hs : s ∈ (objs.filter chunkIsValid).map synthId)
    (habs : ∀ r ∈ col, r.uuid ≠ s) :
    store_processed_data true objs =
      .ok ((objs.filter chunkIsValid).map synthId) ∧
    (∃ o ∈ objs, chunkIsValid o = true ∧ s = synthId o) ∧
    fetch_object_by_id col s = none ∧
    update_document true col s updates = .ok (false, col) ∧
    delete_document true col s = .ok (false, col) := by
  have hfind : fetch_object_by_id col s = none := by
    apply List.find?_eq_none.mpr
    intro r hr
    simp [habs r hr]
  refine ⟨?_, ?_, hfind, ?_, ?_⟩
  · cases objs with
    | nil => simp [store_processed_data]
    | cons o rest =>
      by_cases hc : chunkIsValid o <;>
        simp [store_processed_data, storeLoop_eq, List.filter_cons, hc]
  · rcases List.mem_map.mp hs with ⟨o, ho, rfl⟩
    have hfo := List.mem_filter.mp ho
    exact ⟨o, hfo.1, hfo.2, rfl⟩
  · simp [update_document, hfind]
  · simp [delete_document, hfind]

/-- Witness for C9: the synthesized id of the stored chunk is not a uuid of
the collection, so updating by it reports not-found and changes nothing. -/
theorem C9_synthesized_ids_witness :
    update_document true c9Col "10.1/x_3" [] = .ok (false, c9Col) :=
  (C9_synthesized_ids [c9Obj] c9Col "10.1/x_3" [] (by decide)
    (by decide)).2.2.2.1

/-- A splitter for the C4 witness (empty text yields no chunks). -/
def c4Split : String → List String := fun s => if s = "" then [] else ["a", "b"]

/-- An embedder for the C4 witness that fails on the first chunk only. -/
def c4Embed : String → Except Unit (List ℚ) :=
  fun s => if s = "T [SEP] a" then .error () else .ok [1]

/-- Response objects for the C5 witness: two chunks titled P (created at 5
and 7) and one titled Q (created at 6). -/
def c5Objs : List StoredObject :=
  [⟨"u1", [("title", .str "P"), ("content", .str "body1")], some 5, none⟩,
   ⟨"u2", [("title", .str "P"), ("content", .str "body2")], some 7, none⟩,
   ⟨"u3", [("title", .str "Q"), ("content", .str "body3")], some 6, none⟩]

/-- A two-record collection for the C10 witness: the fan-out touches only
the record titled T; the record titled S is beyond the filter. -/
def c10Col : List StoredObject :=
  [⟨"a", [("title", PropValue.str "T"), ("authors", PropValue.str "old")],
    none, none⟩,
   ⟨"b", [("title", PropValue.str "S")], none, none⟩]

/-- Record j of the oversized C6 collection: a store-assigned uuid of j
characters, title T, authors old. -/
def c6Mk (j : Nat) : StoredObject :=
  ⟨String.mk (List.replicate j 'x'),
   [("title", PropValue.str "T"), ("authors", PropValue.str "old")],
   none, none⟩

/-- A collection of 1001 chunks sharing the title T. -/
def c6ColBig : List StoredObject := (List.range 1001).map c6Mk

/-- The metadata merge of the C6 scenarios. -/
def c6Upd : Props := [("authors", PropValue.str "new")]

/-- The collection produced by the bounded fan-out over the oversized
collection: only the first 1000 fetched chunks are updated. -/
def c6Fold : List StoredObject :=
  ((List.range 1000).map c6Mk).foldl
    (fun c chunk => data_update c chunk.uuid c6Upd) c6ColBig

/-- A collection for the C6 witness: two chunks titled T, one titled S and a
title-less orphan record. -/
def c6DemoCol : List StoredObject :=
  [⟨"a", [("title", PropValue.str "T")], none, none⟩,
   ⟨"b", [("title", PropValue.str "T")], none, none⟩,
   ⟨"c", [("title", PropValue.str "S")], none, none⟩,
   ⟨"d", [], none, none⟩]

/-! ## Lemmas about the diversity-filter accumulators -/

/-- The unlimited accumulator only ever appends: its start is a prefix. -/
theorem distinctAccum_prefix (l : List String) :
    ∀ acc, ∃ t, distinctAccum acc l = acc ++ t := by
  induction l with
  | nil => exact fun acc => ⟨[], by simp [distinctAccum]⟩
  | cons x xs ih =>
    intro acc
    by_cases h : x ∈ acc
    · simpa [distinctAccum, h] using ih acc
    · rcases ih (acc ++ [x]) with ⟨t, ht⟩
      refine ⟨[x] ++ t, ?_⟩
      simp only [distinctAccum, List.foldl_cons, if_neg h] at ht ⊢
      simpa using ht

/-- Once the limited accumulator is full it never grows. -/
theorem limitedAccum_of_full (limit : Nat) (l : List String) :
    ∀ acc, limit ≤ acc.length → limitedAccum limit acc l = acc := by
  induction l with
  | nil => intro acc _; simp [limitedAccum]
  | cons x xs ih =>
    intro acc h
    by_cases hx : x ∈ acc
    · simpa [limitedAccum, hx] using ih acc h
    · have hlen : ¬ acc.length < limit := by omega
      simpa [limitedAccum, hx, hlen] using ih acc h

/-- The limited accumulator is the truncation of the unlimited one. -/
theorem limitedAccum_eq_take (limit : Nat) (l : List String) :
    ∀ acc, acc.length ≤ limit →
      limitedAccum limit acc l = (distinctAccum acc l).take limit := by
  induction l with
  | nil =>
    intro acc h
    simp [limitedAccum, distinctAccum, List.take_of_length_le h]
  | cons x xs ih =>
    intro acc h
    by_cases hx : x ∈ acc
    · simp only [limitedAccum, distinctAccum, List.foldl_cons, if_pos hx]
      exact ih acc h
    · by_cases hlen : acc.length < limit
      · simp only [limitedAccum, distinctAccum, List.foldl_cons, if_neg hx,
          if_pos hlen]
        exact ih (acc ++ [x]) (by simpa using hlen)
      · have hfull : limit ≤ acc.length := by omega
        have hacc : acc.length = limit := by omega
        have hlhs : limitedAccum limit acc (x :: xs) = acc := by
          have h1 : limitedAccum limit acc (x :: xs)
              = limitedAccum limit acc xs := by
            simp [limitedAccum, hx, hlen]
          rw [h1, limitedAccum_of_full limit xs acc hfull]
        have hrhs : (distinctAccum acc (x :: xs)).take limit = acc := by
          have h2 : distinctAccum acc (x :: xs)
              = distinctAccum (acc ++ [x]) xs := by
            simp [distinctAccum, hx]
          rcases distinctAccum_prefix xs (acc ++ [x]) with ⟨t, ht⟩
          rw [h2, ht, List.append_assoc, List.take_left' hacc]
        rw [hlhs, hrhs]

/-- The `unique_titles` set of search_by_document_id is the first-occurrence
title list of the candidate stream, truncated at the limit. -/
theorem acceptedTitles_eq_take (limit : Nat) (raw : List SimilarityResult) :
    acceptedTitles limit raw =
      (distinctTitles (raw.map (fun r => r.title))).take limit := by
  have h1 : acceptedTitles limit raw =
      limitedAccum limit [] (raw.map (fun r => r.title)) := by
    simp [acceptedTitles, limitedAccum, List.foldl_map]
  rw [h1, distinctTitles]
  exact limitedAccum_eq_take limit _ [] (by simp)

/-- C2: over the 4-times-over-fetched ranked candidates, the
document-to-document search returns a sublist (rank order preserved) whose
distinct titles number at most the effective limit; every candidate chunk
whose title was accepted is retained; and the accepted titles are exactly the
first `limit` distinct titles of the ranked stream. -/
theorem C2_diversity_filtering (repo : RepoOracle) (doc_id : String)
    (limit : Option Nat) (st : Option ℚ) (v : List ℚ) (t : String)
    (hl : repo.getVectorAndTitleById doc_id = some (v, t)) :
    ∃ res : List SimilarityResult,
      search_by_document_id repo doc_id limit st = .ok res ∧
      res.Sublist (repo.search v (some (pyOrNat limit 5 * 4))
        (st.map (fun s => 1 - s)) none none none) ∧
      (res.map (fun r => r.title)).toFinset.card ≤ pyOrNat limit 5 ∧
      (∀ r ∈ repo.search v (some (pyOrNat limit 5 * 4))
          (st.map (fun s => 1 - s)) none none none,
        r.title ∈ acceptedTitles (pyOrNat limit 5)
          (repo.search v (some (pyOrNat limit 5 * 4))
            (st.map (fun s => 1 - s)) none none none) → r ∈ res) ∧
      acceptedTitles (pyOrNat limit 5)
          (repo.search v (some (pyOrNat limit 5 * 4))
            (st.map (fun s => 1 - s)) none none none) =
        (distinctTitles ((repo.search v (some (pyOrNat limit 5 * 4))
            (st.map (fun s => 1 - s)) none none none).map
          (fun r => r.title))).take (pyOrNat limit 5) := by
  set L := pyOrNat limit 5 with hL
  set raw := repo.search v (some (L * 4)) (st.map (fun s => 1 - s))
    none none none with hraw
  refine ⟨raw.filter (fun res => res.title ∈ acceptedTitles L raw), ?_, ?_,
    ?_, ?_, ?_⟩
  · simp only [search_by_document_id, hl]
  · exact List.filter_sublist raw
  · have hsub : ∀ x ∈ (raw.filter
        (fun res => res.title ∈ acceptedTitles L raw)).map
          (fun r => r.title), x ∈ acceptedTitles L raw := by
      intro x hx
      rcases List.mem_map.mp hx with ⟨r, hr, rfl⟩
      have := (List.mem_filter.mp hr).2
      simpa using this
    calc ((raw.filter (fun res => res.title ∈ acceptedTitles L raw)).map
            (fun r => r.title)).toFinset.card
        ≤ (acceptedTitles L raw).toFinset.card := by
          apply Finset.card_le_card
          intro x hx
          rw [List.mem_toFinset] at hx ⊢
          exact hsub x hx
      _ ≤ (acceptedTitles L raw).length := List.toFinset_card_le _
      _ ≤ L := by
          rw [acceptedTitles_eq_take]
          exact List.length_take_le _ _
  · intro r hr hacc
    exact List.mem_filter.mpr ⟨hr, by simpa using hacc⟩
  · exact acceptedTitles_eq_take L raw

/-- Witness for C2 at a concrete oracle (limit 3, 7 candidates over 5
titles): the call succeeds, at most 3 distinct titles are returned, and the
reference document's own title T is among them. -/
theorem C2_diversity_filtering_witness :
    ∃ res, search_by_document_id c2Repo "d" (some 3) none = .ok res ∧
      (res.map (fun r => r.title)).toFinset.card ≤ 3 ∧
      "T" ∈ res.map (fun r => r.title) := by
  obtain ⟨res, h1, _, h3, h4, _⟩ :=
    C2_diversity_filtering c2Repo "d" (some 3) none [1] "T" rfl
  refine ⟨res, h1, by simpa using h3, ?_⟩
  have hr := h4 (c2Res "T" 0) (by simp [c2Repo, c2Raw])
    (by simp [c2Repo, c2Raw, acceptedTitles, c2Res, pyOrNat])
  exact List.mem_map.mpr ⟨c2Res "T" 0, hr, rfl⟩

/-- The per-chunk step yields nothing exactly when the embedding fails. -/
theorem chunk_record_of_eq_none (embed_text : String → Except Unit (List ℚ))
    (fm : Props) (ic : Nat × String) :
    chunk_record_of embed_text fm ic = none ↔
      (embed_text (embedInputOf fm ic.2)).isOk = false := by
  cases h : embed_text (embedInputOf fm ic.2) <;>
    simp [chunk_record_of, h, Except.isOk, Except.toBool]

/-- C4: ingestion fails with the processing error exactly when the splitter
produced at least one chunk and the embedding of every chunk failed; and as
soon as one chunk embeds successfully (and the store is reachable) ingestion
succeeds, the failing chunks having been skipped. -/
theorem C4_per_chunk_failure_isolation (split : String → List String)
    (embed_text : String → Except Unit (List ℚ)) (collectionOk : Bool)
    (now : Int) (content : String) (file_stem original_filename : String)
    (metadata : Option Props)
    (hdeg : split "" = []) :
    (process_and_store_document split embed_text collectionOk now content
        file_stem original_filename metadata = .error .processing ↔
      (split content ≠ [] ∧
        ∀ ic ∈ (split content).enum,
          (embed_text (embedInputOf
            (final_metadata_of now file_stem original_filename metadata)
            ic.2)).isOk = false)) ∧
    ((∃ ic ∈ (split content).enum,
        (embed_text (embedInputOf
          (final_metadata_of now file_stem original_filename metadata)
          ic.2)).isOk = true) →
      collectionOk = true →
      ∃ ids, process_and_store_document split embed_text collectionOk now
        content file_stem original_filename metadata = .ok ids) := by
  by_cases hc : content = ""
  · subst hc
    refine ⟨?_, ?_⟩
    · simp [process_and_store_document, hdeg]
    · rintro ⟨ic, hic, -⟩
      rw [hdeg] at hic
      simp at hic
  · rcases hsp : split content with _ | ⟨c0, cs⟩
    · refine ⟨?_, ?_⟩
      · simp [process_and_store_document, hc, hsp]
      · rintro ⟨ic, hic, -⟩
        simp at hic
    · have hchar : (c0 :: cs).enum.filterMap
          (chunk_record_of embed_text
            (final_metadata_of now file_stem original_filename metadata))
            = [] ↔
          ∀ ic ∈ (c0 :: cs).enum,
            (embed_text (embedInputOf
              (final_metadata_of now file_stem original_filename metadata)
              ic.2)).isOk = false := by
        rw [List.filterMap_eq_nil_iff]
        constructor
        · intro h ic hic
          exact (chunk_record_of_eq_none _ _ _).mp (h ic hic)
        · intro h ic hic
          exact (chunk_record_of_eq_none _ _ _).mpr (h ic hic)
      have hres : process_and_store_document split embed_text collectionOk
          now content file_stem original_filename metadata =
          (if ((c0 :: cs).enum.filterMap
              (chunk_record_of embed_text
                (final_metadata_of now file_stem original_filename
                  metadata))).isEmpty
           then .error .processing
           else match store_processed_data collectionOk
              ((c0 :: cs).enum.filterMap
                (chunk_record_of embed_text
                  (final_metadata_of now file_stem original_filename
                    metadata))) with
            | .ok ids => .ok ids
            | .error _ => .error .storage) := by
        simp only [process_and_store_document, if_neg hc, hsp,
          List.isEmpty_cons, Bool.false_eq_true, if_false]
      refine ⟨?_, ?_⟩
      · rw [hres]
        by_cases hPe : (c0 :: cs).enum.filterMap
            (chunk_record_of embed_text
              (final_metadata_of now file_stem original_filename metadata))
            = []
        · simp only [hPe, List.isEmpty_nil, if_true]
          constructor
          · intro _
            exact ⟨by simp, hchar.mp hPe⟩
          · intro _
            trivial
        · rcases hP2 : (c0 :: cs).enum.filterMap
              (chunk_record_of embed_text
                (final_metadata_of now file_stem original_filename metadata))
              with _ | ⟨p0, ps⟩
          · exact absurd hP2 hPe
          · simp only [hP2, List.isEmpty_cons, Bool.false_eq_true, if_false]
            constructor
            · intro hcontra
              rcases hst : store_processed_data collectionOk (p0 :: ps) with
                ids | e
              · rw [hst] at hcontra
                simp at hcontra
              · rw [hst] at hcontra
                simp at hcontra
            · rintro ⟨-, hall⟩
              exact absurd (hchar.mpr hall) hPe
      · rintro ⟨ic, hic, hok⟩ hcol
        subst hcol
        have hPne : (c0 :: cs).enum.filterMap
            (chunk_record_of embed_text
              (final_metadata_of now file_stem original_filename metadata))
            ≠ [] := by
          intro h0
          have := hchar.mp h0 ic hic
          rw [hok] at this
          cases this
        rw [hres]
        rcases hP2 : (c0 :: cs).enum.filterMap
            (chunk_record_of embed_text
              (final_metadata_of now file_stem original_filename metadata))
            with _ | ⟨p0, ps⟩
        · exact absurd hP2 hPne
        · simp only [List.isEmpty_cons, Bool.false_eq_true, if_false]
          simp [store_processed_data]

/-- Witness for C4: with a two-chunk document whose first chunk fails to
embed, ingestion still succeeds. -/
theorem C4_per_chunk_failure_isolation_witness :
    ∃ ids, process_and_store_document c4Split c4Embed true 0 "doc" "stem"
      "f.pdf" (some [("title", PropValue.str "T")]) = .ok ids :=
  (C4_per_chunk_failure_isolation c4Split c4Embed true 0 "doc" "stem" "f.pdf"
    (some [("title", PropValue.str "T")]) rfl).2
    ⟨(1, "b"), by decide, by decide⟩ rfl

/-! ## Lemmas about get_all_documents -/

/-- The deduplication fold of get_all_documents computes the recursive
selection, appended to the accumulated results. -/
theorem getAll_foldl_eq (l : List StoredObject) :
    ∀ (seen : List String) (results : List SimilarityResult),
      (l.foldl (fun acc obj =>
        let title := titleOf obj
        if title ∈ acc.1 then acc
        else (title :: acc.1, acc.2 ++ [mkListResult obj])) (seen, results)).2
      = results ++ (selectFirstByTitle seen l).map mkListResult := by
  induction l with
  | nil => intro seen results; simp [selectFirstByTitle]
  | cons o rest ih =>
    intro seen results
    by_cases h : titleOf o ∈ seen
    · simp [h, ih, selectFirstByTitle]
    · simp [h, ih, selectFirstByTitle]

/-- get_all_documents is the mapped selection over the sorted response. -/
theorem get_all_documents_eq (objs : List StoredObject) :
    get_all_documents objs =
      (selectFirstByTitle [] (sortByCreationDesc objs)).map mkListResult := by
  simpa [get_all_documents] using
    getAll_foldl_eq (sortByCreationDesc objs) [] []

/-- A selected object's title was not among the already-seen titles. -/
theorem select_not_seen (l : List StoredObject) :
    ∀ seen, ∀ x ∈ selectFirstByTitle seen l, titleOf x ∉ seen := by
  induction l with
  | nil => simp [selectFirstByTitle]
  | cons o rest ih =>
    intro seen x hx
    by_cases h : titleOf o ∈ seen
    · simp only [selectFirstByTitle, if_pos h] at hx
      exact ih seen x hx
    · simp only [selectFirstByTitle, if_neg h] at hx
      rcases List.mem_cons.mp hx with rfl | hx
      · exact h
      · intro hmem
        exact ih _ x hx (List.mem_cons_of_mem _ hmem)

/-- The selection is a sublist of its input (original order preserved). -/
theorem select_sublist (l : List StoredObject) :
    ∀ seen, (selectFirstByTitle seen l).Sublist l := by
  induction l with
  | nil => intro seen; simp [selectFirstByTitle]
  | cons o rest ih =>
    intro seen
    by_cases h : titleOf o ∈ seen
    · simp only [selectFirstByTitle, if_pos h]
      exact (ih seen).cons o
    · simp only [selectFirstByTitle, if_neg h]
      exact (ih _).cons₂ o

/-- Selected objects have pairwise distinct titles. -/
theorem select_pairwise_titles (l : List StoredObject) :
    ∀ seen, (selectFirstByTitle seen l).Pairwise
      (fun a b => titleOf a ≠ titleOf b) := by
  induction l with
  | nil => intro seen; simp [selectFirstByTitle]
  | cons o rest ih =>
    intro seen
    by_cases h : titleOf o ∈ seen
    · simpa [selectFirstByTitle, h] using ih seen
    · simp only [selectFirstByTitle, if_neg h]
      refine List.Pairwise.cons ?_ (ih _)
      intro b hb he
      have hnot := select_not_seen rest _ b hb
      apply hnot
      rw [← he]
      exact List.mem_cons_self _ _

/-- On a descending-by-creation input, every selected object carries the
maximal creation key among the input objects sharing its title. -/
theorem select_max (l : List StoredObject)
    (hs : l.Pairwise (fun a b => creationKey b ≤ creationKey a)) :
    ∀ seen, ∀ x ∈ selectFirstByTitle seen l, ∀ o2 ∈ l,
      titleOf o2 = titleOf x → creationKey o2 ≤ creationKey x := by
  induction l with
  | nil => simp
  | cons o rest ih =>
    rcases List.pairwise_cons.mp hs with ⟨hhead, htail⟩
    intro seen x hx o2 ho2 ht
    by_cases h : titleOf o ∈ seen
    · simp only [selectFirstByTitle, if_pos h] at hx
      rcases List.mem_cons.mp ho2 with rfl | ho2
      · have hnot := select_not_seen rest seen x hx
        exact absurd (show titleOf x ∈ seen by rw [← ht]; exact h) hnot
      · exact ih htail seen x hx o2 ho2 ht
    · simp only [selectFirstByTitle, if_neg h] at hx
      rcases List.mem_cons.mp hx with rfl | hx
      · rcases List.mem_cons.mp ho2 with rfl | ho2
        · exact le_refl _
        · exact hhead o2 ho2
      · rcases List.mem_cons.mp ho2 with rfl | ho2
        · have hnot := select_not_seen rest _ x hx
          exact absurd (show titleOf x ∈ titleOf o2 :: seen by
            rw [← ht]; exact List.mem_cons_self _ _) hnot
        · exact ih htail _ x hx o2 ho2 ht

/-- Inserting is a permutation with consing. -/
theorem insertByCreation_perm (o : StoredObject) (l : List StoredObject) :
    (insertByCreation o l).Perm (o :: l) := by
  induction l with
  | nil => simp [insertByCreation]
  | cons x xs ih =>
    by_cases h : creationKey o < creationKey x
    · simp only [insertByCreation, if_pos h]
      exact (ih.cons x).trans (List.Perm.swap o x xs)
    · simp only [insertByCreation, if_neg h]
      exact List.Perm.refl _

/-- Membership through an insertion. -/
theorem mem_insertByCreation {b o : StoredObject} {l : List StoredObject} :
    b ∈ insertByCreation o l ↔ b = o ∨ b ∈ l := by
  rw [(insertByCreation_perm o l).mem_iff]
  simp

/-- Inserting preserves the descending order. -/
theorem insertByCreation_sorted (o : StoredObject) (l : List StoredObject)
    (h : l.Pairwise (fun a b => creationKey b ≤ creationKey a)) :
    (insertByCreation o l).Pairwise
      (fun a b => creationKey b ≤ creationKey a) := by
  induction l with
  | nil => simp [insertByCreation]
  | cons x xs ih =>
    rcases List.pairwise_cons.mp h with ⟨hhead, htail⟩
    by_cases hlt : creationKey o < creationKey x
    · simp only [insertByCreation, if_pos hlt]
      refine List.Pairwise.cons ?_ (ih htail)
      intro b hb
      rcases mem_insertByCreation.mp hb with rfl | hb
      · omega
      · exact hhead b hb
    · simp only [insertByCreation, if_neg hlt]
      refine List.Pairwise.cons ?_ h
      intro b hb
      rcases List.mem_cons.mp hb with rfl | hb
      · omega
      · have := hhead b hb
        omega

/-- The recency sort is a permutation of the response. -/
theorem sortByCreationDesc_perm (l : List StoredObject) :
    (sortByCreationDesc l).Perm l := by
  induction l with
  | nil => simp [sortByCreationDesc]
  | cons x xs ih =>
    exact (insertByCreation_perm x _).trans (ih.cons x)

/-- The recency sort is descending in the creation key. -/
theorem sortByCreationDesc_sorted (l : List StoredObject) :
    (sortByCreationDesc l).Pairwise
      (fun a b => creationKey b ≤ creationKey a) := by
  induction l with
  | nil => simp [sortByCreationDesc]
  | cons x xs ih =>
    exact insertByCreation_sorted x _ ih

/-- C5: list-all returns pairwise-distinct titles; the entries are built from
a selection of the response objects that is descending in creation time, and
each kept object has the maximal creation time among response objects sharing
its title; each entry's content is the 200-character preview of the chunk
content. -/
theorem C5_list_all_dedup_recency (objs : List StoredObject) :
    ((get_all_documents objs).map (fun r => r.title)).Pairwise
      (fun a b => a ≠ b) ∧
    ∃ ws : List StoredObject,
      get_all_documents objs = ws.map mkListResult ∧
      ws.Pairwise (fun a b => creationKey b ≤ creationKey a) ∧
      (∀ o ∈ ws, o ∈ objs) ∧
      (∀ o ∈ ws, ∀ o2 ∈ objs, titleOf o2 = titleOf o →
        creationKey o2 ≤ creationKey o) ∧
      (∀ o : StoredObject, (mkListResult o).content =
        (getPropStr o.props "content" "").take 200) := by
  have hsorted := sortByCreationDesc_sorted objs
  have hperm := sortByCreationDesc_perm objs
  have heq := get_all_documents_eq objs
  refine ⟨?_, selectFirstByTitle [] (sortByCreationDesc objs), heq, ?_, ?_,
    ?_, fun o => ?_⟩
  · rw [heq]
    have hp := select_pairwise_titles (sortByCreationDesc objs) []
    simpa [List.pairwise_map] using hp
  · exact hsorted.sublist (select_sublist _ [])
  · intro o ho
    exact hperm.mem_iff.mp ((select_sublist _ []).subset ho)
  · intro o ho o2 ho2 ht
    exact select_max _ hsorted [] o ho o2 (hperm.mem_iff.mpr ho2) ht
  · simp only [mkListResult]

/-- Witness for C5 on a concrete response: of two chunks titled P the one
created later is kept, titles are unique, and the order is by recency. -/
theorem C5_list_all_dedup_recency_witness :
    ((get_all_documents c5Objs).map (fun r => r.title)).Pairwise
      (fun a b => a ≠ b) ∧
    (get_all_documents c5Objs).map (fun r => r.title) = ["P", "Q"] ∧
    (get_all_documents c5Objs).map (fun r => r.id) =
      [some "u2", some "u3"] := by
  refine ⟨(C5_list_all_dedup_recency c5Objs).1, ?_, ?_⟩ <;> decide

/-! ## Lemmas about the update fan-out -/

/-- Indexing through a single merge-update. -/
theorem data_update_getElem? (col : List StoredObject) (u : String)
    (upd : Props) (i : Nat) :
    (data_update col u upd)[i]? = col[i]?.map (fun r =>
      if r.uuid == u then { r with props := mergeProps r.props upd }
      else r) := by
  simp [data_update, List.getElem?_map]

/-- A record whose uuid is hit by none of the fanned-out updates is left
exactly as it was, at its position. -/
theorem foldl_update_preserve (chunks : List StoredObject) :
    ∀ (col : List StoredObject) (upd : Props) (i : Nat) (r : StoredObject),
      col[i]? = some r → (∀ c ∈ chunks, c.uuid ≠ r.uuid) →
      (chunks.foldl (fun c chunk => data_update c chunk.uuid upd) col)[i]?
        = some r := by
  induction chunks with
  | nil => intro col upd i r hr _; simpa using hr
  | cons c cs ih =>
    intro col upd i r hr hne
    simp only [List.foldl_cons]
    apply ih
    · have hcu : (r.uuid == c.uuid) = false :=
        beq_eq_false_iff_ne.mpr
          (fun he => hne c (List.mem_cons_self c cs) he.symm)
      rw [data_update_getElem?, hr]
      simp only [Option.map_some']
      rw [hcu]
      simp
    · exact fun c2 hc2 => hne c2 (List.mem_cons_of_mem _ hc2)

/-- A record whose uuid is among the fanned-out (uuid-distinct) chunks ends
up, at its position, with the new properties merged in. -/
theorem foldl_update_applies (chunks : List StoredObject) :
    ∀ (col : List StoredObject) (upd : Props) (i : Nat) (r : StoredObject),
      col[i]? = some r → r.uuid ∈ chunks.map (fun c => c.uuid) →
      (chunks.map (fun c => c.uuid)).Nodup →
      (chunks.foldl (fun c chunk => data_update c chunk.uuid upd) col)[i]?
        = some { r with props := mergeProps r.props upd } := by
  induction chunks with
  | nil => intro col upd i r _ hmem _; simp at hmem
  | cons c cs ih =>
    intro col upd i r hr hmem hnd
    simp only [List.map_cons, List.nodup_cons] at hnd
    simp only [List.foldl_cons]
    rcases List.mem_cons.mp hmem with he | hmem2
    · apply foldl_update_preserve
      · have hcu : (r.uuid == c.uuid) = true := beq_iff_eq.mpr he
        rw [data_update_getElem?, hr]
        simp only [Option.map_some']
        rw [hcu]
        simp
      · intro c2 hc2 hco
        have hco2 : c2.uuid = r.uuid := hco
        have hmm : c2.uuid ∈ cs.map (fun c => c.uuid) :=
          List.mem_map_of_mem _ hc2
        rw [hco2, he] at hmm
        exact hnd.1 hmm
    · apply ih _ upd i r ?_ hmem2 hnd.2
      have hcu : (r.uuid == c.uuid) = false := by
        apply beq_eq_false_iff_ne.mpr
        intro he2
        exact hnd.1 (he2 ▸ hmem2)
      rw [data_update_getElem?, hr]
      simp only [Option.map_some']
      rw [hcu]
      simp

/-- The uuids of the fetched title-sharing chunks inherit distinctness from
the collection. -/
theorem fetched_uuids_nodup (col : List StoredObject) (t : PropValue)
    (hnd : (col.map (fun r => r.uuid)).Nodup) (n : Nat) :
    ((fetch_objects_by_title col t n).map (fun r => r.uuid)).Nodup := by
  have hsub : (fetch_objects_by_title col t n).Sublist col :=
    (List.take_sublist _ _).trans (List.filter_sublist col)
  exact List.Nodup.sublist (hsub.map _) hnd

/-- C10: the title fan-out of update_by_id fetches at most 1000 chunks
sharing the resolved title, and any record whose uuid is not among the
fetched chunks keeps all its previous property values (it is returned
unchanged at its position). -/
theorem C10_update_fanout_bounded (col : List StoredObject) (doc_id : String)
    (upd : Props) (obj : StoredObject) (t : PropValue) (i : Nat)
    (r : StoredObject)
    (hobj : fetch_object_by_id col doc_id = some obj)
    (ht : getProp obj.props "title" = some t)
    (htr : pyTruthy t = true)
    (hr : col[i]? = some r)
    (hout : r.uuid ∉ (fetch_objects_by_title col t 1000).map
      (fun c => c.uuid)) :
    (fetch_objects_by_title col t 1000).length ≤ 1000 ∧
    ∃ col2, update_document true col doc_id upd = .ok (true, col2) ∧
      col2[i]? = some r := by
  constructor
  · simp only [fetch_objects_by_title, List.length_take]
    omega
  · have hstep : update_document true col doc_id upd = .ok (true,
        (fetch_objects_by_title col t 1000).foldl
          (fun c chunk => data_update c chunk.uuid upd) col) := by
      simp [update_document, hobj, ht, htr]
    refine ⟨_, hstep, ?_⟩
    apply foldl_update_preserve _ col upd i r hr
    intro c hc he
    exact hout (he ▸ List.mem_map_of_mem _ hc)

/-- Witness for C10: updating via the T-titled record leaves the S-titled
record (whose uuid the title fetch does not return) untouched. -/
theorem C10_update_fanout_bounded_witness :
    ∃ col2, update_document true c10Col "a" [("authors", PropValue.str "new")]
        = .ok (true, col2) ∧
      col2[1]? = some ⟨"b", [("title", PropValue.str "S")], none, none⟩ :=
  (C10_update_fanout_bounded c10Col "a" [("authors", PropValue.str "new")]
    ⟨"a", [("title", PropValue.str "T"), ("authors", PropValue.str "old")],
      none, none⟩
    (PropValue.str "T") 1
    ⟨"b", [("title", PropValue.str "S")], none, none⟩
    rfl rfl rfl rfl (by decide)).2

/-- C6 (amended): update_by_id resolves the record's title and applies the
property merge to every chunk sharing that title among the (at most 1000)
chunks fetched for the fan-out, and delete_by_id deletes every chunk sharing
the resolved title; when the resolved record's title is missing or falsy,
the update (respectively delete) applies only to the single identified
record. -/
theorem C6_fanout_amended (col : List StoredObject) (doc_id : String)
    (upd : Props) (obj : StoredObject)
    (hobj : fetch_object_by_id col doc_id = some obj)
    (hnd : (col.map (fun r => r.uuid)).Nodup) :
    (∀ t, getProp obj.props "title" = some t → pyTruthy t = true →
      ((∀ (i : Nat) (r : StoredObject), col[i]? = some r →
          r.uuid ∈ (fetch_objects_by_title col t 1000).map
            (fun c => c.uuid) →
          ∃ col2, update_document true col doc_id upd = .ok (true, col2) ∧
            col2[i]? = some
              { r with props := mergeProps r.props upd }) ∧
        ∃ col2, delete_document true col doc_id = .ok (true, col2) ∧
          ∀ r : StoredObject, r ∈ col2 ↔
            (r ∈ col ∧ ¬ getProp r.props "title" = some t))) ∧
    (pyTruthyOpt (getProp obj.props "title") = false →
      ((∃ col2, update_document true col doc_id upd = .ok (true, col2) ∧
          ∀ (i : Nat) (r : StoredObject), col[i]? = some r →
            col2[i]? = some (if r.uuid = doc_id then
              { r with props := mergeProps r.props upd } else r)) ∧
        ∃ col2, delete_document true col doc_id = .ok (true, col2) ∧
          ∀ r : StoredObject, r ∈ col2 ↔ (r ∈ col ∧ r.uuid ≠ doc_id))) := by
  constructor
  · intro t ht htr
    constructor
    · intro i r hr hmem
      have hstep : update_document true col doc_id upd = .ok (true,
          (fetch_objects_by_title col t 1000).foldl
            (fun c chunk => data_update c chunk.uuid upd) col) := by
        simp [update_document, hobj, ht, htr]
      exact ⟨_, hstep, foldl_update_applies _ col upd i r hr hmem
        (fetched_uuids_nodup col t hnd 1000)⟩
    · have hstep : delete_document true col doc_id = .ok (true,
          col.filter (fun r => !(getProp r.props "title" == some t))) := by
        simp [delete_document, hobj, ht, htr]
      refine ⟨_, hstep, ?_⟩
      intro r
      simp [List.mem_filter]
  · intro hft
    have hstep_u : update_document true col doc_id upd =
        .ok (true, data_update col doc_id upd) := by
      rcases hgt : getProp obj.props "title" with _ | t
      · simp [update_document, hobj, hgt]
      · have hfalse : pyTruthy t = false := by
          rw [hgt] at hft
          simpa [pyTruthyOpt] using hft
        simp [update_document, hobj, hgt, hfalse]
    have hstep_d : delete_document true col doc_id =
        .ok (true, col.filter (fun r => r.uuid ≠ doc_id)) := by
      rcases hgt : getProp obj.props "title" with _ | t
      · simp [delete_document, hobj, hgt]
      · have hfalse : pyTruthy t = false := by
          rw [hgt] at hft
          simpa [pyTruthyOpt] using hft
        simp [delete_document, hobj, hgt, hfalse]
    constructor
    · refine ⟨_, hstep_u, ?_⟩
      intro i r hr
      rw [data_update_getElem?, hr]
      simp only [Option.map_some']
      by_cases he : r.uuid = doc_id
      · rw [show (r.uuid == doc_id) = true from beq_iff_eq.mpr he]
        simp [he]
      · rw [show (r.uuid == doc_id) = false from
          beq_eq_false_iff_ne.mpr he]
        simp [he]
    · refine ⟨_, hstep_d, ?_⟩
      intro r
      simp [List.mem_filter]

/-- Witness for the amended C6: in a small collection, updating via the first
T-chunk merges the properties into the other T-chunk, and deleting via the
title-less orphan removes only the orphan. -/
theorem C6_fanout_amended_witness :
    (∃ col2, update_document true c6DemoCol "a" c6Upd = .ok (true, col2) ∧
      col2[1]? = some ⟨"b", mergeProps [("title", PropValue.str "T")] c6Upd,
        none, none⟩) ∧
    (∃ col2, delete_document true c6DemoCol "d" = .ok (true, col2) ∧
      ∀ r : StoredObject, r ∈ col2 ↔ (r ∈ c6DemoCol ∧ r.uuid ≠ "d")) := by
  have h := C6_fanout_amended c6DemoCol "a" c6Upd
    ⟨"a", [("title", PropValue.str "T")], none, none⟩ rfl (by decide)
  have h2 := C6_fanout_amended c6DemoCol "d" c6Upd
    ⟨"d", [], none, none⟩ rfl (by decide)
  constructor
  · exact (h.1 (PropValue.str "T") rfl rfl).1 1
      ⟨"b", [("title", PropValue.str "T")], none, none⟩ rfl (by decide)
  · exact (h2.2 rfl).2

/-- The title fetch over the oversized collection returns exactly the first
1000 of its 1001 title-sharing chunks. -/
theorem c6_fetch_eq :
    fetch_objects_by_title c6ColBig (PropValue.str "T") 1000 =
      (List.range 1000).map c6Mk := by
  have hfil : c6ColBig.filter
      (fun r => getProp r.props "title" == some (PropValue.str "T"))
      = c6ColBig := by
    apply List.filter_eq_self.mpr
    intro a ha
    rcases List.mem_map.mp ha with ⟨j, hj, rfl⟩
    rfl
  show (c6ColBig.filter
      (fun r => getProp r.props "title" == some (PropValue.str "T"))).take 1000
    = (List.range 1000).map c6Mk
  rw [hfil]
  show ((List.range 1001).map c6Mk).take 1000 = (List.range 1000).map c6Mk
  rw [← List.map_take, List.take_range]
  norm_num

/-- The 1001st chunk of the oversized collection. -/
theorem c6_get_1000 : c6ColBig[1000]? = some (c6Mk 1000) := by
  show ((List.range 1001).map c6Mk)[1000]? = some (c6Mk 1000)
  rw [List.getElem?_map, List.getElem?_range (by omega)]
  rfl

/-- No chunk among the first 1000 carries the 1001st chunk's uuid. -/
theorem c6_uuid_fresh :
    ∀ c ∈ (List.range 1000).map c6Mk, c.uuid ≠ (c6Mk 1000).uuid := by
  intro c hc
  rcases List.mem_map.mp hc with ⟨j, hj, rfl⟩
  have hj2 : j < 1000 := List.mem_range.mp hj
  intro he
  have hlen := congrArg String.length he
  simp only [c6Mk, String.length, List.length_replicate] at hlen
  omega

set_option maxRecDepth 8192 in
/-- The bounded fan-out over the oversized collection. -/
theorem c6_step :
    update_document true c6ColBig "" c6Upd = .ok (true, c6Fold) := by
  have h1 : fetch_object_by_id c6ColBig "" = some (c6Mk 0) := rfl
  have hs : update_document true c6ColBig "" c6Upd = .ok (true,
      (fetch_objects_by_title c6ColBig (PropValue.str "T") 1000).foldl
        (fun c chunk => data_update c chunk.uuid c6Upd) c6ColBig) := by
    simp [update_document, h1]
    rfl
  rw [hs, c6_fetch_eq]
  rfl

/-- Counterexample to C6 as stated: in a collection of 1001 chunks sharing
the title T, updating authors via the first chunk's id succeeds as a title
fan-out, yet the 1001st chunk — which shares the resolved title — keeps its
old authors value, because the fan-out fetch is capped at 1000 chunks. -/
theorem C6_counterexample :
    update_document true c6ColBig "" c6Upd = .ok (true, c6Fold) ∧
    getProp (c6Mk 0).props "title" = some (PropValue.str "T") ∧
    c6Fold[1000]? = some (c6Mk 1000) ∧
    getProp (c6Mk 1000).props "title" = some (PropValue.str "T") ∧
    getProp (c6Mk 1000).props "authors" = some (PropValue.str "old") ∧
    getProp (c6Mk 1000).props "authors" ≠ some (PropValue.str "new") := by
  refine ⟨c6_step, rfl, ?_, rfl, rfl, ?_⟩
  swap
  · rw [show getProp (c6Mk 1000).props "authors"
        = some (PropValue.str "old") from rfl]
    decide
  exact foldl_update_preserve ((List.range 1000).map c6Mk) c6ColBig c6Upd
    1000 (c6Mk 1000) c6_get_1000 c6_uuid_fresh
